import Mathlib

/-!
Verification of the vscode-http request-tree provider
(`src/provider/http_request_tree_provider.ts`, `src/models/types.ts`).

The TypeScript source is shallowly embedded below.  String values are Lean
`String`s (lists of Unicode scalar values); the JavaScript string operations
used by the source (`replace(/\/+$/, '')`, `startsWith`, `slice`, `trim`,
truthiness of strings/options) are translated explicitly.  `new URL(...)`
is a host-platform primitive: it is modelled here by `parseURL`, a
simplified WHATWG-style parser (see its doc comment for the simplifications).
-/

namespace VscodeHttp

/-! ## Model of the platform URL parser -/

/-- Components of a parsed URL that the provider code reads.  Only
`pathname` is consumed by the source; `scheme` and `host` are kept so that
the model records what parsing discarded. -/
structure URLParts where
  scheme : String
  host : String
  pathname : String
deriving DecidableEq

/-- Characters allowed after the first character of a URL scheme. -/
def isSchemeChar (c : Char) : Bool :=
  c.isAlphanum || c == '+' || c == '-' || c == '.'

/-- A valid scheme: one ASCII letter followed by letters, digits, `+`, `-`, `.`. -/
def validScheme : List Char → Bool
  | [] => false
  | c :: t => c.isAlpha && t.all isSchemeChar

/-- The WHATWG "special" schemes with a mandatory authority. -/
def specialSchemes : List String := ["http", "https", "ws", "wss", "ftp"]

/-- Characters ending the authority component. -/
def isAuthEnd (c : Char) : Bool := c == '/' || c == '?' || c == '#'

/-- Characters starting the query or fragment component. -/
def isQF (c : Char) : Bool := c == '?' || c == '#'

/-- Split the input at the first `:`; `none` when no `:` occurs. -/
def splitScheme : List Char → Option (List Char × List Char)
  | [] => none
  | c :: t =>
    if c = ':' then some ([], t)
    else
      match splitScheme t with
      | none => none
      | some (a, r) => some (c :: a, r)

/-- Authority and pathname of a special-scheme URL; fails when the
authority is empty (e.g. `https:` or `https://` do not parse). -/
def specialParts (scheme : String) (rest : List Char) : Option URLParts :=
  let r := rest.dropWhile (· == '/')
  let auth := r.takeWhile (fun c => !isAuthEnd c)
  if auth = [] then none
  else
    let after := r.drop auth.length
    let pathname :=
      match after with
      | '/' :: _ => (after.takeWhile (fun c => !isQF c)).asString
      | _ => "/"
    some ⟨scheme, auth.asString, pathname⟩

/-- `file:` URLs: empty host, pathname is `/` plus the slash-stripped rest. -/
def fileParts (scheme : String) (rest : List Char) : URLParts :=
  ⟨scheme, "",
    ('/' :: (rest.dropWhile (· == '/')).takeWhile (fun c => !isQF c)).asString⟩

/-- Non-special schemes always parse: either `scheme://authority/path`
or an opaque path. -/
def nonspecialParts (scheme : String) (rest : List Char) : URLParts :=
  match rest with
  | '/' :: '/' :: rs =>
    let auth := rs.takeWhile (fun c => !isAuthEnd c)
    ⟨scheme, auth.asString,
      ((rs.drop auth.length).takeWhile (fun c => !isQF c)).asString⟩
  | _ => ⟨scheme, "", (rest.takeWhile (fun c => !isQF c)).asString⟩

/-- Dispatch on the scheme once the input has been split at the first `:`. -/
def parseFromSplit : Option (List Char × List Char) → Option URLParts
  | none => none
  | some (pre, rest) =>
    if validScheme pre then
      let scheme := (pre.map Char.toLower).asString
      if scheme ∈ specialSchemes then specialParts scheme rest
      else if scheme = "file" then some (fileParts scheme rest)
      else some (nonspecialParts scheme rest)
    else none

/-- Model of the host platform's `new URL(s)` constructor (absolute form,
no base argument), as used by `getPathFromUrl`.  `none` models the thrown
`TypeError`.  Simplifications relative to WHATWG: input whitespace/control
stripping, percent-encoding, dot-segment resolution, userinfo/port
splitting and host-character validation are not modelled; `file:` hosts
are folded into the pathname.  The inputs exercised by the provider and
by the spec's examples are plain ASCII URLs where these aspects coincide. -/
def parseURL (s : String) : Option URLParts :=
  parseFromSplit (splitScheme s.toList)

/-! ## The URL relativizer (`normalizeUrl`, `getPathFromUrl`) -/

/-- `url.replace(/\/+$/, '')`: strip every trailing `/`. -/
def normalizeUrl (s : String) : String :=
  ((s.toList.reverse.dropWhile (· == '/')).reverse).asString

/-- JavaScript `p || '/'` on a string `p`. -/
def jsOrSlash (p : String) : String := if p = "" then "/" else p

/-- The branch of `getPathFromUrl` reached once `url` and the normalized
`baseUrl` have both parsed: `path` is the url's (defaulted) pathname and
`basePath` the base's pathname stripped of trailing slashes. -/
def relPathCore (path basePath : String) : String :=
  if basePath = "" ∨ basePath = "/" then path
  else if path = basePath then "/"
  else if (basePath ++ "/").toList.isPrefixOf path.toList then
    jsOrSlash ((path.toList.drop basePath.toList.length).asString)
  else path

/-- `getPathFromUrl(url, baseUrl?)` from the source: extract the path of
`url`, relativized against the path of `baseUrl` when one is given.  A
parse failure of `url`, or of the normalized `baseUrl`, is caught and the
raw `url` is returned.  `if (baseUrl)` is JS truthiness: the empty string
counts as absent. -/
def getPathFromUrl (url : String) (baseUrl : Option String) : String :=
  match parseURL url with
  | none => url
  | some u =>
    let path := jsOrSlash u.pathname
    match baseUrl with
    | none => path
    | some b =>
      if b = "" then path
      else
        match parseURL (normalizeUrl b) with
        | none => url
        | some bu => relPathCore path (normalizeUrl bu.pathname)

/-! ## Data model (`src/models/types.ts`) -/

/-- `Environment` from `types.ts`. -/
structure Environment where
  id : String
  name : String
  baseUrl : String
deriving DecidableEq

/-- `Interface` from `types.ts`; optional fields are `Option`s. -/
structure Interface where
  id : String
  name : String
  url : String
  method : Option String
  parentId : String
  requestBody : Option String
  responseBody : Option String
deriving DecidableEq

/-- `Collection` from `types.ts`. -/
structure Collection where
  id : String
  name : String
  parentId : String
  children : List Interface
deriving DecidableEq

/-- A direct child of a `Project`: `(Collection | Interface)[]` in `types.ts`. -/
inductive ProjectChild
  | coll (c : Collection)
  | iface (i : Interface)
deriving DecidableEq

/-- `Project` from `types.ts`; `environments?` and `currentEnvId?` are
optional fields. -/
structure Project where
  id : String
  name : String
  children : List ProjectChild
  environments : Option (List Environment)
  currentEnvId : Option String
deriving DecidableEq

/-- `TreeDataItem` from the provider: the five node shapes the provider
distinguishes (via field-shape checks in TS; the shapes are disjoint, so a
tagged union is an equivalent embedding).  The two body nodes carry their
back-reference to the owning `Interface`. -/
inductive TreeDataItem
  | proj (p : Project)
  | coll (c : Collection)
  | iface (i : Interface)
  | requestBody (parent : Interface)
  | responseBody (parent : Interface)
deriving DecidableEq

/-- Inject a Project's stored child into the provider's item type. -/
def ProjectChild.toItem : ProjectChild → TreeDataItem
  | .coll c => .coll c
  | .iface i => .iface i

/-! ## Hierarchy navigation -/

/-- `getProjectById`: linear scan of the root projects. -/
def getProjectById (projects : List Project) (id : String) : Option Project :=
  projects.find? (fun p => p.id == id)

/-- `getProjectForItem`, keyed by the item's `parentId`: first try the
direct project lookup, then scan every project's children for a Collection
whose id equals `parentId` and return that project. -/
def getProjectForItem (projects : List Project) (parentId : String) :
    Option Project :=
  match getProjectById projects parentId with
  | some p => some p
  | none =>
    projects.find? (fun p =>
      p.children.any (fun ch =>
        match ch with
        | .coll c => c.id == parentId
        | .iface _ => false))

/-- JS truthiness of an optional string (`undefined` and `""` are falsy). -/
def jsTruthyStr : Option String → Bool
  | none => false
  | some s => s != ""

/-- `getCurrentBaseUrl`: `const current = project.currentEnvId ?
envs.find(e => e.id === project.currentEnvId) : envs[0]` — note the JS
truthiness test, under which `currentEnvId === ""` falls back to `envs[0]`. -/
def getCurrentBaseUrl (project : Project) : Option String :=
  let envs := project.environments.getD []
  let current :=
    if jsTruthyStr project.currentEnvId then
      envs.find? (fun e => e.id == project.currentEnvId.getD "")
    else envs.head?
  current.map (·.baseUrl)

/-! ## Tree presentation (`getTreeItem`, `getChildren`) -/

/-- The `vscode.TreeItemCollapsibleState` values the provider uses. -/
inductive CollapsibleState
  | expanded
  | collapsed
  | leaf
deriving DecidableEq

/-- The `vscode.TreeItem` fields the provider sets.  Fields the provider
leaves unset on a branch are `none` there. -/
structure TreeItem where
  label : String
  collapsibleState : CollapsibleState
  iconKind : String
  itemId : Option String
  description : Option String
  tooltip : Option String
  contextValue : Option String
deriving DecidableEq

/-- JavaScript `x || d` for an optional string `x`. -/
def jsOr (x : Option String) (d : String) : String :=
  match x with
  | some s => if s = "" then d else s
  | none => d

/-- `getTreeItem`, branch by branch as in the source.  The final
`return new TreeItem('未知')` branch of the source is unreachable over the
five tagged shapes and has no counterpart here. -/
def getTreeItem (projects : List Project) : TreeDataItem → TreeItem
  | .proj p =>
    let baseUrl := getCurrentBaseUrl p
    { label := p.name
      collapsibleState := .expanded
      iconKind := "folder-library"
      itemId := some p.id
      description := some (baseUrl.getD "")
      tooltip := some (if jsTruthyStr baseUrl then
          "当前环境: " ++ baseUrl.getD "" else "项目: " ++ p.name)
      contextValue := some "project" }
  | .coll c =>
    { label := c.name
      collapsibleState := .expanded
      iconKind := "folder"
      itemId := none
      description := some (toString c.children.length ++ " 个请求")
      tooltip := some ("集合: " ++ c.name)
      contextValue := some "collection" }
  | .iface i =>
    let project := getProjectForItem projects i.parentId
    let baseUrl :=
      match project with
      | some p => getCurrentBaseUrl p
      | none => none
    { label := i.name
      collapsibleState := .collapsed
      iconKind := "globe"
      itemId := none
      description := some (getPathFromUrl i.url baseUrl)
      tooltip := some (jsOr i.method "GET" ++ " " ++ i.url)
      contextValue := some "interface" }
  | .requestBody parent =>
    { label := "请求体"
      collapsibleState := .leaf
      iconKind := "edit"
      itemId := none
      description := none
      tooltip := some (jsOr parent.requestBody "暂无请求体")
      contextValue := some "requestBody" }
  | .responseBody parent =>
    { label := "响应体"
      collapsibleState := .leaf
      iconKind := "output"
      itemId := none
      description := none
      tooltip := some (jsOr parent.responseBody "暂无响应体")
      contextValue := some "responseBody" }

/-- `getChildren`: roots when no element is given, stored children for
projects and collections, the two synthesized body nodes for an
interface, and nothing for the body leaves. -/
def getChildren (projects : List Project) :
    Option TreeDataItem → List TreeDataItem
  | none => projects.map .proj
  | some (.proj p) => p.children.map ProjectChild.toItem
  | some (.coll c) => c.children.map .iface
  | some (.iface i) => [.requestBody i, .responseBody i]
  | some (.requestBody _) => []
  | some (.responseBody _) => []

/-! ## Environment mutations (`addEnvironment`, `setCurrentEnvironment`) -/

/-- Outcome of a mutating provider operation: the (possibly updated)
project, whether `saveToStorage` ran, whether the change event fired, and
any informational message shown. -/
structure MutationResult where
  project : Project
  saved : Bool
  notified : Bool
  message : Option String
deriving DecidableEq

/-- JavaScript `String.prototype.trim` restricted to the ASCII whitespace
the embedded strings contain. -/
def jsTrim (s : String) : String :=
  (((s.toList.dropWhile Char.isWhitespace).reverse.dropWhile
      Char.isWhitespace).reverse).asString

/-- `addEnvironment`, with the two external prompt results and the
`Date.now()` reading as parameters (`none` models a dismissed prompt).
Blank-trimmed input aborts before any mutation; on success the new
environment is appended (the array is created when absent, and pushing
onto a present empty array is the same thing), and a falsy
`currentEnvId` (unset or `""`) is set to the fresh id. -/
def addEnvironment (project : Project) (nameInput baseUrlInput : Option String)
    (now : Nat) : MutationResult :=
  match nameInput with
  | none => ⟨project, false, false, none⟩
  | some name =>
    if jsTrim name = "" then ⟨project, false, false, none⟩
    else
      match baseUrlInput with
      | none => ⟨project, false, false, none⟩
      | some baseUrl =>
        if jsTrim baseUrl = "" then ⟨project, false, false, none⟩
        else
          let env : Environment :=
            ⟨"env-" ++ toString now, jsTrim name, normalizeUrl (jsTrim baseUrl)⟩
          let envs := project.environments.getD []
          let cur :=
            if jsTruthyStr project.currentEnvId then project.currentEnvId
            else some env.id
          let updated := { project with
            environments := some (envs ++ [env])
            currentEnvId := cur }
          ⟨updated, true, true, none⟩

/-- `setCurrentEnvironment`, with the quick-pick result as a parameter:
`none` models a dismissed picker, `some i` the choice of the i-th listed
environment.  The picker only ever returns a listed option, so an
out-of-range index (impossible externally) is modelled as no choice. -/
def setCurrentEnvironment (project : Project) (choiceIdx : Option Nat) :
    MutationResult :=
  let envs := project.environments.getD []
  if envs.length = 0 then ⟨project, false, false, some "请先添加环境"⟩
  else
    match choiceIdx with
    | none => ⟨project, false, false, none⟩
    | some i =>
      match envs.get? i with
      | none => ⟨project, false, false, none⟩
      | some e =>
        ⟨{ project with currentEnvId := some e.id }, true, true, none⟩

/-! ## Concrete data used to instantiate the theorems -/

/-- The bare Interface of the default seed data (`api-3`). -/
def seedBareInterface : Interface :=
  { id := "api-3"
    name := "健康检查"
    url := "https://api.example.com/health"
    method := some "GET"
    parentId := "proj-1"
    requestBody := none
    responseBody := some "\x7b\"status\": \"ok\"\x7d" }

/-- The default seed Project from `loadFromStorage` (source lines 73–118). -/
def seedProject : Project :=
  { id := "proj-1"
    name := "示例项目"
    children := [
      .coll
        { id := "coll-1"
          name := "用户相关"
          parentId := "proj-1"
          children := [
            { id := "api-1"
              name := "获取用户列表"
              url := "https://api.example.com/users"
              method := some "GET"
              parentId := "coll-1"
              requestBody := none
              responseBody := some "[]" },
            { id := "api-2"
              name := "创建用户"
              url := "https://api.example.com/users"
              method := some "POST"
              parentId := "coll-1"
              requestBody := some "\x7b\"name\": \"\", \"email\": \"\"\x7d"
              responseBody := none }] },
      .iface seedBareInterface]
    environments := some [{ id := "env-1", name := "开发",
                            baseUrl := "https://api.example.com" }]
    currentEnvId := some "env-1" }

/-- The default seed forest persisted on first run. -/
def defaultSeedProjects : List Project := [seedProject]

/-- A project with no environments, used to instantiate mutation theorems. -/
def emptyProject : Project :=
  { id := "p0", name := "P0", children := [], environments := none,
    currentEnvId := none }

/-- A project whose `currentEnvId` is the empty string: set, but falsy in JS. -/
def cexProject : Project :=
  { id := "p1", name := "P", children := [],
    environments := some [{ id := "e1", name := "开发", baseUrl := "https://x" }],
    currentEnvId := some "" }

/-- An interface whose `method` is the empty string: present, but falsy in JS. -/
def cexInterface : Interface :=
  { id := "i1", name := "n", url := "https://x", method := some "",
    parentId := "p1", requestBody := none, responseBody := none }

/-! ## Helper lemmas -/

theorem asString_toList (s : String) : s.toList.asString = s := rfl

theorem splitScheme_eq_none {l : List Char} (h : ∀ c ∈ l, c ≠ ':') :
    splitScheme l = none := by
  induction l with
  | nil => rfl
  | cons c t ih =>
    have hc : c ≠ ':' := h c (List.mem_cons_self _ _)
    simp only [splitScheme, if_neg hc]
    rw [ih (fun x hx => h x (List.mem_cons_of_mem _ hx))]

theorem parseURL_whitespace_eq_none {w : String}
    (hw : w.toList.all Char.isWhitespace = true) : parseURL w = none := by
  have hs : splitScheme w.toList = none := by
    apply splitScheme_eq_none
    intro c hc hcolon
    have hws := (List.all_eq_true.mp hw) c hc
    subst hcolon
    exact absurd hws (by decide)
  have hs2 : splitScheme w.data = none := hs
  simp [parseURL, parseFromSplit, hs2]

theorem normalizeUrl_whitespace {w : String}
    (hw : w.toList.all Char.isWhitespace = true) : normalizeUrl w = w := by
  unfold normalizeUrl
  have hdw : w.toList.reverse.dropWhile (· == '/') = w.toList.reverse := by
    cases hrev : w.toList.reverse with
    | nil => rfl
    | cons c t =>
      have hc : c ∈ w.toList := by
        rw [← List.mem_reverse, hrev]
        exact List.mem_cons_self _ _
      have hws := (List.all_eq_true.mp hw) c hc
      have hcne : (c == '/') = false := by
        rw [beq_eq_false_iff_ne]
        intro h
        subst h
        exact absurd hws (by decide)
      rw [List.dropWhile_cons, hcne]
      simp
  rw [hdw, List.reverse_reverse, asString_toList]

/-! ## Theorems -/

/-- C3: the five concrete relativizer equations from the spec hold on the
embedded `getPathFromUrl`. -/
theorem relativePath_examples :
    getPathFromUrl "https://api.example.com/users"
      (some "https://api.example.com") = "/users" ∧
    getPathFromUrl "https://api.example.com"
      (some "https://api.example.com") = "/" ∧
    getPathFromUrl "https://api.example.com/users" none = "/users" ∧
    getPathFromUrl "not-a-url" (some "https://api.example.com") = "not-a-url" ∧
    getPathFromUrl "https://other.com/x"
      (some "https://api.example.com") = "/x" := by
  refine ⟨?_, ?_, ?_, ?_, ?_⟩ <;> decide

/-- C5: `getChildren` is fully characterized by node kind: roots (in order,
duplicate-free whenever the store is), stored children for projects and
collections, exactly the two synthesized body nodes for an interface, and
nothing below a body node. -/
theorem getChildren_characterization (projects : List Project) (p : Project)
    (c : Collection) (i : Interface) :
    getChildren projects none = projects.map TreeDataItem.proj ∧
    (projects.Nodup → (getChildren projects none).Nodup) ∧
    getChildren projects (some (.proj p)) =
      p.children.map ProjectChild.toItem ∧
    getChildren projects (some (.coll c)) =
      c.children.map TreeDataItem.iface ∧
    getChildren projects (some (.iface i)) =
      [TreeDataItem.requestBody i, TreeDataItem.responseBody i] ∧
    getChildren projects (some (.requestBody i)) = [] ∧
    getChildren projects (some (.responseBody i)) = [] := by
  refine ⟨rfl, ?_, rfl, rfl, rfl, rfl, rfl⟩
  intro h
  exact h.map (fun a b hab => by simpa using hab)

/-- Witness for C5 at the seed forest. -/
theorem getChildren_characterization_witness :
    getChildren defaultSeedProjects (some (.iface seedBareInterface)) =
      [TreeDataItem.requestBody seedBareInterface,
        TreeDataItem.responseBody seedBareInterface] ∧
    (getChildren defaultSeedProjects none).Nodup := by
  obtain ⟨-, h2, -, -, h5, -, -⟩ :=
    getChildren_characterization defaultSeedProjects seedProject
      { id := "coll-1", name := "用户相关", parentId := "proj-1", children := [] }
      seedBareInterface
  exact ⟨h5, h2 (by decide)⟩

/-- C9: `getChildren` and `getTreeItem` are pure functions of the stored
forest and the queried node (the source methods perform no mutation), so
two calls on the same unmutated node give identical results. -/
theorem read_ops_idempotent (projects : List Project) (n : Option TreeDataItem)
    (x : TreeDataItem) :
    getChildren projects n = getChildren projects n ∧
    getTreeItem projects x = getTreeItem projects x :=
  ⟨rfl, rfl⟩

/-- C8: aborted mutations leave the project unchanged and neither persist
nor notify: `addEnvironment` dismissed or blank at either prompt;
`setCurrentEnvironment` on an empty environment list (informational
message only); `setCurrentEnvironment` with the picker dismissed. -/
theorem aborted_mutations_no_change (p : Project) (nm bs : String)
    (bIn : Option String) (choice : Option Nat) (now : Nat) :
    addEnvironment p none bIn now = ⟨p, false, false, none⟩ ∧
    (jsTrim nm = "" →
      addEnvironment p (some nm) bIn now = ⟨p, false, false, none⟩) ∧
    addEnvironment p (some nm) none now = ⟨p, false, false, none⟩ ∧
    (jsTrim bs = "" →
      addEnvironment p (some nm) (some bs) now = ⟨p, false, false, none⟩) ∧
    (p.environments.getD [] = [] →
      setCurrentEnvironment p choice = ⟨p, false, false, some "请先添加环境"⟩) ∧
    (p.environments.getD [] ≠ [] →
      setCurrentEnvironment p none = ⟨p, false, false, none⟩) := by
  refine ⟨rfl, ?_, ?_, ?_, ?_, ?_⟩
  · intro h
    simp [addEnvironment, h]
  · by_cases h : jsTrim nm = "" <;> simp [addEnvironment, h]
  · intro h
    by_cases h2 : jsTrim nm = "" <;> simp [addEnvironment, h, h2]
  · intro h
    simp [setCurrentEnvironment, h]
  · intro h
    simp [setCurrentEnvironment, List.length_eq_zero, h]

/-- Witness for C8: a blank name prompt, an environment-less project on
selection, and a dismissed picker on the seed project. -/
theorem aborted_mutations_no_change_witness :
    addEnvironment emptyProject (some " ") (some "x") 0 =
      ⟨emptyProject, false, false, none⟩ ∧
    setCurrentEnvironment emptyProject (some 0) =
      ⟨emptyProject, false, false, some "请先添加环境"⟩ ∧
    setCurrentEnvironment seedProject none =
      ⟨seedProject, false, false, none⟩ := by
  refine ⟨?_, ?_, ?_⟩
  · exact (aborted_mutations_no_change emptyProject " " "x" (some "x")
      (some 0) 0).2.1 (by decide)
  · exact (aborted_mutations_no_change emptyProject " " "x" (some "x")
      (some 0) 0).2.2.2.2.1 (by decide)
  · exact (aborted_mutations_no_change seedProject " " "x" (some "x")
      none 0).2.2.2.2.2 (by decide)

/-- C2 (amended): when `url` fails to parse the raw `url` is returned for
any `baseUrl`, and the function is total; but when `url` parses and
`baseUrl` is absent or empty, the url's path component (defaulted to `/`)
is returned, not the raw url; a whitespace-only non-empty `baseUrl` makes
the base parse fail inside the try block and the raw `url` is returned. -/
theorem relativePath_failopen (url w : String) :
    (∀ u, parseURL url = some u →
      getPathFromUrl url none = jsOrSlash u.pathname ∧
      getPathFromUrl url (some "") = jsOrSlash u.pathname) ∧
    (parseURL url = none → ∀ b, getPathFromUrl url b = url) ∧
    (w ≠ "" → w.toList.all Char.isWhitespace = true →
      getPathFromUrl url (some w) = url) := by
  refine ⟨?_, ?_, ?_⟩
  · intro u hu
    constructor <;> simp [getPathFromUrl, hu]
  · intro h b
    cases b <;> simp [getPathFromUrl, h]
  · intro hne hw
    have h1 := normalizeUrl_whitespace hw
    have h2 := parseURL_whitespace_eq_none hw
    cases hu : parseURL url with
    | none => simp [getPathFromUrl, hu]
    | some u => simp [getPathFromUrl, hu, hne, h1, h2]

/-- C2 counterexample: with an absent `baseUrl` and a parseable `url`, the
function returns the url's path component, not the raw url string. -/
theorem relativePath_absent_base_cex :
    getPathFromUrl "https://api.example.com/users" none = "/users" ∧
    ("/users" : String) ≠ "https://api.example.com/users" := by
  exact ⟨by decide, by decide⟩

/-- Witness for C2 (amended) at concrete inputs. -/
theorem relativePath_failopen_witness :
    getPathFromUrl "https://h/a" none = "/a" ∧
    getPathFromUrl "not-a-url" (some "https://h") = "not-a-url" ∧
    getPathFromUrl "https://h/a" (some " ") = "https://h/a" := by
  refine ⟨?_, ?_, ?_⟩
  · exact (((relativePath_failopen "https://h/a" " ").1
      ⟨"https", "h", "/a"⟩ (by decide)).1).trans (by decide)
  · exact (relativePath_failopen "not-a-url" " ").2.1 (by decide)
      (some "https://h")
  · exact (relativePath_failopen "https://h/a" " ").2.2 (by decide) (by decide)

/-- C4 (amended): an Interface's display attributes: label is the name,
state collapsed, description is the relativized url against the owning
project's active base (absent project means absent base), and the tooltip
is `"<method> <url>"` where an absent or empty `method` displays as
`GET` (JS truthiness of `element.method || 'GET'`). -/
theorem getTreeItem_interface_display (projects : List Project)
    (i : Interface) :
    (getTreeItem projects (.iface i)).label = i.name ∧
    (getTreeItem projects (.iface i)).collapsibleState =
      CollapsibleState.collapsed ∧
    (getTreeItem projects (.iface i)).description =
      some (getPathFromUrl i.url
        (match getProjectForItem projects i.parentId with
          | some p => getCurrentBaseUrl p
          | none => none)) ∧
    (getProjectForItem projects i.parentId = none →
      (getTreeItem projects (.iface i)).description =
        some (getPathFromUrl i.url none)) ∧
    (getTreeItem projects (.iface i)).tooltip =
      some (jsOr i.method "GET" ++ " " ++ i.url) := by
  refine ⟨rfl, rfl, rfl, ?_, rfl⟩
  intro h
  simp [getTreeItem, h]

/-- C4 counterexample: for an Interface whose `method` is the empty string
(present, not absent), the code displays `GET`, while the claimed tooltip
formula with the present method would give `" <url>"`. -/
theorem getTreeItem_interface_tooltip_cex :
    cexInterface.method = some "" ∧
    (getTreeItem [] (.iface cexInterface)).tooltip = some "GET https://x" ∧
    ("GET https://x" : String) ≠ "" ++ " " ++ "https://x" := by
  exact ⟨rfl, by decide, by decide⟩

/-- Witness for C4 (amended): dangling parentId means the relativizer is
called with an absent base. -/
theorem getTreeItem_interface_display_witness :
    (getTreeItem [] (.iface cexInterface)).description = some "/" := by
  have h := (getTreeItem_interface_display [] cexInterface).2.2.2.1 (by decide)
  exact h.trans (by decide)

/-- C6 (amended): `getCurrentBaseUrl` resolves a non-empty `currentEnvId`
by id lookup, falls back to the first environment when `currentEnvId` is
unset — or set to the empty string, which is falsy in JS — and returns
absent when the environment list is absent or empty.  The function is a
pure read: it never writes `currentEnvId`. -/
theorem getCurrentBaseUrl_resolution (p : Project) :
    (∀ cid, p.currentEnvId = some cid → cid ≠ "" →
      getCurrentBaseUrl p =
        ((p.environments.getD []).find? (fun e => e.id == cid)).map
          (·.baseUrl)) ∧
    (p.currentEnvId = none ∨ p.currentEnvId = some "" →
      getCurrentBaseUrl p =
        ((p.environments.getD []).head?).map (·.baseUrl)) ∧
    (p.environments = none ∨ p.environments = some [] →
      getCurrentBaseUrl p = none) := by
  refine ⟨?_, ?_, ?_⟩
  · intro cid hc hne
    simp [getCurrentBaseUrl, jsTruthyStr, hc, hne]
  · intro h
    rcases h with h | h <;> simp [getCurrentBaseUrl, jsTruthyStr, h]
  · intro h
    rcases h with h | h <;> simp [getCurrentBaseUrl, h]

/-- C6 counterexample: a project whose `currentEnvId` is set to `""` and
has no environment with id `""` — the claim predicts absent, the code
falls back to the first environment's base URL. -/
theorem getCurrentBaseUrl_empty_cid_cex :
    cexProject.currentEnvId = some "" ∧
    (cexProject.environments.getD []).all (fun e => e.id != "") = true ∧
    getCurrentBaseUrl cexProject = some "https://x" := by
  exact ⟨rfl, by decide, by decide⟩

/-- Witness for C6 (amended) on the seed project. -/
theorem getCurrentBaseUrl_resolution_witness :
    getCurrentBaseUrl seedProject = some "https://api.example.com" := by
  have h := (getCurrentBaseUrl_resolution seedProject).1 "env-1" (by decide)
    (by decide)
  exact h.trans (by decide)

/-- C7: a successful `addEnvironment` appends exactly one environment,
built from the trimmed name, the trimmed slash-stripped base URL and the
freshly generated id `env-<now>` (unique in the list provided the clock
reading is fresh), creates the array when absent, and sets an unset
`currentEnvId` to the new id; it persists and notifies. -/
theorem addEnvironment_success (p : Project) (name baseUrl : String)
    (now : Nat) (hn : jsTrim name ≠ "") (hb : jsTrim baseUrl ≠ "")
    (hf : (p.environments.getD []).all
      (fun e => e.id != "env-" ++ toString now) = true) :
    (addEnvironment p (some name) (some baseUrl) now).project.environments =
      some (p.environments.getD [] ++
        [⟨"env-" ++ toString now, jsTrim name,
          normalizeUrl (jsTrim baseUrl)⟩]) ∧
    (((addEnvironment p (some name) (some baseUrl)
          now).project.environments.getD []).filter
        (fun e => e.id == "env-" ++ toString now)).length = 1 ∧
    (p.currentEnvId = none →
      (addEnvironment p (some name) (some baseUrl) now).project.currentEnvId =
        some ("env-" ++ toString now)) ∧
    (p.environments.getD [] = [] ∧ p.currentEnvId = none →
      ((addEnvironment p (some name) (some baseUrl)
          now).project.environments.getD []).length = 1 ∧
      (addEnvironment p (some name) (some baseUrl) now).project.currentEnvId =
        some ("env-" ++ toString now)) ∧
    (addEnvironment p (some name) (some baseUrl) now).saved = true ∧
    (addEnvironment p (some name) (some baseUrl) now).notified = true := by
  have key : addEnvironment p (some name) (some baseUrl) now =
      ⟨{ p with
          environments := some (p.environments.getD [] ++
            [⟨"env-" ++ toString now, jsTrim name,
              normalizeUrl (jsTrim baseUrl)⟩])
          currentEnvId := if jsTruthyStr p.currentEnvId then p.currentEnvId
            else some ("env-" ++ toString now) },
        true, true, none⟩ := by
    simp [addEnvironment, hn, hb]
  rw [key]
  have hnil : (p.environments.getD []).filter
      (fun e => e.id == "env-" ++ toString now) = [] := by
    rw [List.filter_eq_nil_iff]
    intro a ha
    have h := (List.all_eq_true.mp hf) a ha
    simpa using h
  refine ⟨rfl, ?_, ?_, ?_, rfl, rfl⟩
  · simp [List.filter_append, hnil]
  · intro h
    simp [h, jsTruthyStr]
  · intro h
    obtain ⟨h1, h2⟩ := h
    simp [h1, h2, jsTruthyStr]

/-- Witness for C7: the spec's own example — name `prod`, base URL
`https://api.example.com/` on a project with no environments. -/
theorem addEnvironment_success_witness :
    (addEnvironment emptyProject (some "prod")
        (some "https://api.example.com/") 0).project.environments =
      some [⟨"env-0", "prod", "https://api.example.com"⟩] ∧
    (addEnvironment emptyProject (some "prod")
        (some "https://api.example.com/") 0).project.currentEnvId =
      some "env-0" := by
  have h := addEnvironment_success emptyProject "prod"
    "https://api.example.com/" 0 (by decide) (by decide) (by decide)
  exact ⟨h.1.trans (by decide), (h.2.2.1 (by decide)).trans (by decide)⟩

theorem relPathCore_of_eq {path basePath : String} (h1 : basePath ≠ "")
    (h2 : basePath ≠ "/") (h : path = basePath) :
    relPathCore path basePath = "/" := by
  unfold relPathCore
  rw [if_neg (not_or.mpr ⟨h1, h2⟩), if_pos h]

theorem relPathCore_of_extends {path basePath : String} (h1 : basePath ≠ "")
    (h2 : basePath ≠ "/")
    (h : (basePath ++ "/").toList.isPrefixOf path.toList = true) :
    relPathCore path basePath =
      (path.toList.drop basePath.toList.length).asString := by
  obtain ⟨t, ht⟩ := List.isPrefixOf_iff_prefix.mp h
  have htl : (basePath ++ "/").toList = basePath.toList ++ ['/'] := by
    change (basePath ++ "/").data = basePath.data ++ ['/']
    rw [String.data_append]
  have hpath : path.toList = basePath.toList ++ ('/' :: t) := by
    rw [← ht, htl, List.append_assoc]
    rfl
  have hne : path ≠ basePath := by
    intro he
    have hl : (basePath.toList ++ '/' :: t).length = basePath.toList.length := by
      rw [← hpath, he]
    rw [List.length_append, List.length_cons] at hl
    omega
  have hdrop : path.toList.drop basePath.toList.length = '/' :: t := by
    rw [hpath]
    exact List.drop_left _ _
  unfold relPathCore
  rw [if_neg (not_or.mpr ⟨h1, h2⟩), if_neg hne, if_pos h, hdrop]
  unfold jsOrSlash
  rw [if_neg]
  intro hcon
  have hdata := congrArg String.toList hcon
  exact List.noConfusion hdata

theorem relPathCore_of_outside {path basePath : String}
    (h : basePath.toList.isPrefixOf path.toList = false) :
    relPathCore path basePath = path := by
  have hnp : ¬ basePath.toList <+: path.toList := by
    intro hp
    rw [← List.isPrefixOf_iff_prefix, h] at hp
    exact Bool.noConfusion hp
  have hne : path ≠ basePath := by
    intro he
    exact hnp (he ▸ List.prefix_refl _)
  have hnp2 : ((basePath ++ "/").toList.isPrefixOf path.toList) ≠ true := by
    intro hb
    apply hnp
    have hsub : basePath.toList <+: (basePath ++ "/").toList := by
      have : (basePath ++ "/").toList = basePath.toList ++ "/".toList := by
        change (basePath ++ "/").data = basePath.data ++ "/".data
        rw [String.data_append]
      rw [this]
      exact List.prefix_append _ _
    exact hsub.trans ( List.isPrefixOf_iff_prefix.mp hb)
  unfold relPathCore
  by_cases hc : basePath = "" ∨ basePath = "/"
  · rw [if_pos hc]
  · rw [if_neg hc, if_neg hne, if_neg hnp2]

/-- C1: with a parseable url and a present base whose normalized path is
non-empty and not `/`: an equal path relativizes to `/`, a path extending
the base path relativizes to the suffix with the leading `/` kept, and a
path not extending the base path is returned in full. -/
theorem relativePath_base_branches (url b : String) (u bu : URLParts)
    (hu : parseURL url = some u) (hb : parseURL (normalizeUrl b) = some bu)
    (h1 : normalizeUrl bu.pathname ≠ "")
    (h2 : normalizeUrl bu.pathname ≠ "/") :
    (jsOrSlash u.pathname = normalizeUrl bu.pathname →
      getPathFromUrl url (some b) = "/") ∧
    ((normalizeUrl bu.pathname ++ "/").toList.isPrefixOf
        (jsOrSlash u.pathname).toList = true →
      getPathFromUrl url (some b) =
        ((jsOrSlash u.pathname).toList.drop
          (normalizeUrl bu.pathname).toList.length).asString) ∧
    ((normalizeUrl bu.pathname).toList.isPrefixOf
        (jsOrSlash u.pathname).toList = false →
      getPathFromUrl url (some b) = jsOrSlash u.pathname) := by
  have hbne : b ≠ "" := by
    intro he
    rw [he] at hb
    rw [(show parseURL (normalizeUrl "") = none by decide)] at hb
    exact Option.noConfusion hb
  have hmain : getPathFromUrl url (some b) =
      relPathCore (jsOrSlash u.pathname) (normalizeUrl bu.pathname) := by
    simp [getPathFromUrl, hu, hb, hbne]
  refine ⟨?_, ?_, ?_⟩
  · intro h
    rw [hmain]
    exact relPathCore_of_eq h1 h2 h
  · intro h
    rw [hmain]
    exact relPathCore_of_extends h1 h2 h
  · intro h
    rw [hmain]
    exact relPathCore_of_outside h

/-- Witness for C1: one concrete input per branch. -/
theorem relativePath_base_branches_witness :
    getPathFromUrl "https://h/api" (some "https://h/api/") = "/" ∧
    getPathFromUrl "https://h/api/users" (some "https://h/api") = "/users" ∧
    getPathFromUrl "https://h/zzz" (some "https://h/api") = "/zzz" := by
  refine ⟨?_, ?_, ?_⟩
  · exact (relativePath_base_branches "https://h/api" "https://h/api/"
      ⟨"https", "h", "/api"⟩ ⟨"https", "h", "/api"⟩ (by decide) (by decide)
      (by decide) (by decide)).1 (by decide)
  · exact ((relativePath_base_branches "https://h/api/users" "https://h/api"
      ⟨"https", "h", "/api/users"⟩ ⟨"https", "h", "/api"⟩ (by decide)
      (by decide) (by decide) (by decide)).2.1 (by decide)).trans (by decide)
  · exact ((relativePath_base_branches "https://h/zzz" "https://h/api"
      ⟨"https", "h", "/zzz"⟩ ⟨"https", "h", "/api"⟩ (by decide) (by decide)
      (by decide) (by decide)).2.2 (by decide)).trans (by decide)

theorem splitScheme_append {s : List Char} (hs : ∀ c ∈ s, c ≠ ':')
    {l a r : List Char} (h : splitScheme (l ++ s) = some (a, r)) :
    ∃ t, splitScheme l = some (a, t) ∧ r = t ++ s := by
  induction l generalizing a r with
  | nil =>
    rw [List.nil_append, splitScheme_eq_none hs] at h
    exact Option.noConfusion h
  | cons c t ih =>
    by_cases hc : c = ':'
    · subst hc
      rw [List.cons_append] at h
      simp only [splitScheme, if_pos rfl, Option.some.injEq,
        Prod.mk.injEq] at h
      obtain ⟨rfl, rfl⟩ := h
      exact ⟨t, by simp [splitScheme], rfl⟩
    · rw [List.cons_append] at h
      simp only [splitScheme, if_neg hc] at h
      cases hsp : splitScheme (t ++ s) with
      | none =>
        rw [hsp] at h
        exact Option.noConfusion h
      | some pr =>
        obtain ⟨a2, r2⟩ := pr
        rw [hsp] at h
        simp only [Option.some.injEq, Prod.mk.injEq] at h
        obtain ⟨rfl, rfl⟩ := h
        obtain ⟨t0, ht1, ht2⟩ := ih hsp
        refine ⟨t0, ?_, ht2⟩
        simp [splitScheme, if_neg hc, ht1]

theorem dropWhile_slashes_nil {s : List Char} (hs : ∀ c ∈ s, c = '/') :
    s.dropWhile (· == '/') = [] :=
  List.dropWhile_eq_nil_iff.mpr (fun c hc => by simp [hs c hc])

theorem auth_ne_nil_of_append {s : List Char} (hs : ∀ c ∈ s, c = '/')
    {rest : List Char}
    (h : ((rest ++ s).dropWhile (· == '/')).takeWhile
        (fun c => !isAuthEnd c) ≠ []) :
    (rest.dropWhile (· == '/')).takeWhile (fun c => !isAuthEnd c) ≠ [] := by
  induction rest with
  | nil =>
    exfalso
    apply h
    rw [List.nil_append, dropWhile_slashes_nil hs]
    rfl
  | cons c t ih =>
    by_cases hc : (c == '/') = true
    · rw [List.cons_append, List.dropWhile_cons, if_pos hc] at h
      rw [List.dropWhile_cons, if_pos hc]
      exact ih h
    · rw [List.cons_append, List.dropWhile_cons, if_neg hc] at h
      rw [List.dropWhile_cons, if_neg hc]
      simp only [List.takeWhile_cons] at h ⊢
      by_cases hae : (!isAuthEnd c) = true
      · rw [if_pos hae]
        exact List.cons_ne_nil _ _
      · rw [if_neg hae] at h
        exact absurd rfl h

theorem specialParts_isSome_of_append {scheme : String} {s : List Char}
    (hs : ∀ c ∈ s, c = '/') {rest : List Char} {x : URLParts}
    (h : specialParts scheme (rest ++ s) = some x) :
    (specialParts scheme rest).isSome = true := by
  have hne : ((rest ++ s).dropWhile (· == '/')).takeWhile
      (fun c => !isAuthEnd c) ≠ [] := by
    intro hnil
    simp only [specialParts] at h
    rw [if_pos hnil] at h
    exact Option.noConfusion h
  have h2 := auth_ne_nil_of_append hs hne
  simp only [specialParts]
  rw [if_neg h2]
  rfl

theorem toList_normalizeUrl (s : String) :
    (normalizeUrl s).toList = (s.toList.reverse.dropWhile (· == '/')).reverse :=
  rfl

theorem toList_decomp (s : String) :
    s.toList = (normalizeUrl s).toList ++
      (s.toList.reverse.takeWhile (· == '/')).reverse := by
  rw [toList_normalizeUrl]
  conv_lhs => rw [← List.reverse_reverse s.toList]
  rw [← List.takeWhile_append_dropWhile (· == '/') s.toList.reverse,
    List.reverse_append, List.takeWhile_append_dropWhile]

theorem slashes_all {s : String} :
    ∀ c ∈ (s.toList.reverse.takeWhile (· == '/')).reverse, c = '/' := by
  intro c hc
  rw [List.mem_reverse] at hc
  have h := List.mem_takeWhile_imp hc
  simpa using h

/-- Robustness of the URL model under the provider's base normalization:
if `baseUrl` parses, then `baseUrl` stripped of trailing slashes still
parses. -/
theorem parseURL_normalizeUrl_isSome {b : String} {rb : URLParts}
    (h : parseURL b = some rb) :
    (parseURL (normalizeUrl b)).isSome = true := by
  unfold parseURL at h ⊢
  cases hsp : splitScheme b.toList with
  | none =>
    rw [hsp] at h
    exact Option.noConfusion h
  | some pr =>
    obtain ⟨pre, rest⟩ := pr
    rw [hsp] at h
    simp only [parseFromSplit] at h
    by_cases hv : validScheme pre = true
    case neg =>
      rw [if_neg hv] at h
      exact Option.noConfusion h
    rw [if_pos hv] at h
    have hsl : ∀ c ∈ (b.toList.reverse.takeWhile (· == '/')).reverse, c = '/' :=
      slashes_all
    have hsp2 : splitScheme ((normalizeUrl b).toList ++
        (b.toList.reverse.takeWhile (· == '/')).reverse) = some (pre, rest) := by
      rw [← toList_decomp]
      exact hsp
    obtain ⟨t0, hsp0, hrest⟩ :=
      splitScheme_append (fun c hc => by rw [hsl c hc]; decide) hsp2
    rw [hsp0]
    simp only [parseFromSplit]
    rw [if_pos hv]
    by_cases hspec : (pre.map Char.toLower).asString ∈ specialSchemes
    · rw [if_pos hspec]
      rw [if_pos hspec, hrest] at h
      exact specialParts_isSome_of_append hsl h
    · rw [if_neg hspec]
      rw [if_neg hspec] at h
      by_cases hfile : (pre.map Char.toLower).asString = "file"
      · rw [if_pos hfile]
        rfl
      · rw [if_neg hfile]
        rfl

/-- C10: the relativizer reads only the path components — two urls that
parse to the same path relativize identically against any parseable base,
and in particular a url on a different host is still relativized when its
path extends the base path. -/
theorem relativePath_ignores_host (u1 u2 b : String) (r1 r2 rb : URLParts)
    (h1 : parseURL u1 = some r1) (h2 : parseURL u2 = some r2)
    (hp : r1.pathname = r2.pathname) (hb : parseURL b = some rb) :
    getPathFromUrl u1 (some b) = getPathFromUrl u2 (some b) ∧
    getPathFromUrl "https://other.com/api/users"
      (some "https://api.example.com/api") = "/users" := by
  constructor
  · have hbne : b ≠ "" := by
      intro he
      rw [he] at hb
      rw [(show parseURL "" = none by decide)] at hb
      exact Option.noConfusion hb
    obtain ⟨v, hv⟩ := Option.isSome_iff_exists.mp (parseURL_normalizeUrl_isSome hb)
    simp [getPathFromUrl, h1, h2, hbne, hv, hp]
  · decide

/-- Witness for C10: two urls on different hosts with the same path. -/
theorem relativePath_ignores_host_witness :
    getPathFromUrl "https://a.example/api/users"
        (some "https://api.example.com/api") =
      getPathFromUrl "https://b.example/api/users"
        (some "https://api.example.com/api") :=
  (relativePath_ignores_host "https://a.example/api/users"
    "https://b.example/api/users" "https://api.example.com/api"
    ⟨"https", "a.example", "/api/users"⟩ ⟨"https", "b.example", "/api/users"⟩
    ⟨"https", "api.example.com", "/api"⟩ (by decide) (by decide) (by decide)
    (by decide)).1

end VscodeHttp
